import Mathlib

/-!
Verification of the QRZ protocol decoding and pagination engine of the
carrier_wave repository (scripts/debug_qrz_download.py).

Strings are modelled as List Char (Python str indexing and slicing is by
code point, matching list positions).  Python dicts holding response fields
are modelled as association lists in insertion order; a later binding for
the same key overwrites an earlier one, which the lookup function dget
reflects by preferring the rightmost entry.  Fallible Python operations
(int(...) raising ValueError, raise Exception(...)) are modelled with
Option / Except.  Character-class predicates (str.isdigit, regex \w, \d,
whitespace stripping) are modelled on the Basic Latin range plus the
Latin-1/superscript digit characters that Python classifies as digits
without accepting them in int(); the service protocol itself is ASCII.
-/

/-- Convert a Lean string literal to the List Char representation used
throughout this development. -/
def str (s : String) : List Char := s.toList

/-- Lookup in an insertion-ordered association list, mirroring a Python dict
in which a later assignment to a key overwrites an earlier one: the
rightmost binding wins. -/
def dget : List (List Char × List Char) → List Char → Option (List Char)
  | [], _ => none
  | (k, v) :: rest, key =>
    match dget rest key with
    | some w => some w
    | none => if k = key then some v else none

/-- Python str.split(sep) for a one-character separator: splits at every
occurrence, keeping empty segments, and yields one (empty) segment for the
empty string. -/
def pySplitChar (sep : Char) (s : List Char) : List (List Char) :=
  s.foldr
    (fun c acc =>
      if c = sep then [] :: acc
      else
        match acc with
        | h :: t => (c :: h) :: t
        | [] => [[c]])
    [[]]

/-- Python pair.split(sep, 1) for separator c, specialised to the use in
parse_response: returns the text before the first c and the text after it,
or none when c does not occur (the len(parts) >= 2 test fails). -/
def splitFirstEq : List Char → Option (List Char × List Char)
  | [] => none
  | c :: rest =>
    if c = '=' then some ([], rest)
    else
      match splitFirstEq rest with
      | some (a, b) => some (c :: a, b)
      | none => none

/-- Python str.find(pat): index of the first occurrence of pat as a
substring, or none (Python: -1) when absent. -/
def findSub (pat : List Char) : List Char → Option Nat
  | [] => if pat.isPrefixOf ([] : List Char) then some 0 else none
  | c :: t =>
    if pat.isPrefixOf (c :: t) then some 0
    else (findSub pat t).map (· + 1)

/-- Marker string "ADIF=" searched for by parse_response. -/
def adifMarker : List Char := str "ADIF="

/-- Key under which the ADIF payload is stored. -/
def adifKey : List Char := str "ADIF"

/-- Fold one key=value segment into the accumulated mapping, as done by the
loop bodies of parse_response: segments without an equals sign contribute
nothing. -/
def foldPair (d : List (List Char × List Char)) (pair : List Char) :
    List (List Char × List Char) :=
  match splitFirstEq pair with
  | some (k, v) => d ++ [(k, v)]
  | none => d

/-- Model of parse_response (debug_qrz_download.py lines 78-109).  When the
text contains the marker "ADIF=", everything before the first occurrence is
split on ampersands into key=value pairs (skipping empty segments), and
everything after the marker is bound verbatim to key "ADIF"; otherwise the
whole text is split on ampersands. -/
def parse_response (response : List Char) : List (List Char × List Char) :=
  match findSub adifMarker response with
  | some i =>
    let before := response.take i
    let pre := (pySplitChar '&' before).foldl
      (fun d pair => if pair = [] then d else foldPair d pair) []
    pre ++ [(adifKey, response.drop (i + adifMarker.length))]
  | none =>
    (pySplitChar '&' response).foldl (fun d pair => foldPair d pair) []

/-- Model of a Python datetime value (naive, second precision, as produced
by datetime.strptime with the formats used in the script). -/
structure PyDateTime where
  year : Nat
  month : Nat
  day : Nat
  hour : Nat
  minute : Nat
  second : Nat
  deriving DecidableEq

/-- Model of the QRZFetchedQSO dataclass.  log_id is Optional[int]; the
timestamp field always holds a value because the parser substitutes the
current wall-clock time when the date is missing or unparsable. -/
structure QRZFetchedQSO where
  callsign : List Char
  band : List Char
  mode : List Char
  timestamp : PyDateTime
  log_id : Option Int
  raw_adif : List Char
  deriving DecidableEq

/-- Page size constant of the script (PAGE_SIZE = 2000). -/
def PAGE_SIZE : Nat := 2000

/-- Model of the max_log_id computation (lines 309-315): fold over the
page, taking each record's log_id into the running maximum only when it is
truthy in Python, that is, present and nonzero. -/
def computeMaxLogId (pageQsos : List QRZFetchedQSO) : Int :=
  pageQsos.foldl
    (fun m q =>
      match q.log_id with
      | some n => if n ≠ 0 then max m n else m
      | none => m)
    0

/-- Outcome of the continuation decision at the bottom of the fetch loop
(lines 325-335): stop because the page was short, stop on the
cannot-paginate error branch, or continue with a new AFTERLOGID cursor. -/
inductive ContinuationDecision where
  | lastPage
  | stall
  | nextPage (afterLogId : Int)
  deriving DecidableEq

/-- Model of the continuation decision: a page shorter than PAGE_SIZE is
the last page; otherwise a zero max_log_id takes the log_error branch and
stops; otherwise the loop continues with afterLogId = max_log_id + 1. -/
def pageDecision (pageQsos : List QRZFetchedQSO) : ContinuationDecision :=
  if pageQsos.length < PAGE_SIZE then ContinuationDecision.lastPage
  else if computeMaxLogId pageQsos = 0 then ContinuationDecision.stall
  else ContinuationDecision.nextPage (computeMaxLogId pageQsos + 1)

/-- Result of running the fetch loop.  completed is the normal-termination
break (debug log, line 326); stalled is the cannot-paginate break that
emits the error-level log at line 330, observably different from normal
completion; fuelOut marks exhaustion of the step budget (the real loop
would keep issuing requests). -/
inductive LoopResult where
  | completed (qsos : List QRZFetchedQSO)
  | stalled (qsos : List QRZFetchedQSO)
  | fuelOut (qsos : List QRZFetchedQSO)
  deriving DecidableEq

/-- Model of the pagination loop of fetch_qsos (lines 246-341) restricted
to the successful-page path: pages maps an AFTERLOGID cursor value to the
list of records parsed from the response of the request issued with that
cursor.  Each iteration appends the page to the accumulator (line 322,
which runs before the continuation checks) and then applies the
continuation decision. -/
def fetchLoopModel (pages : Int → List QRZFetchedQSO) :
    Nat → Int → List QRZFetchedQSO → LoopResult
  | 0, _, acc => LoopResult.fuelOut acc
  | fuel + 1, afterLogId, acc =>
    let pageQsos := pages afterLogId
    match pageDecision pageQsos with
    | ContinuationDecision.lastPage => LoopResult.completed (acc ++ pageQsos)
    | ContinuationDecision.stall => LoopResult.stalled (acc ++ pageQsos)
    | ContinuationDecision.nextPage a => fetchLoopModel pages fuel a (acc ++ pageQsos)

/-- Fixed reference datetime used as the now argument and as a placeholder
timestamp in concrete examples. -/
def epoch : PyDateTime := ⟨1970, 1, 1, 0, 0, 0⟩

/-- Minimal record carrying a given log identifier, used in the pagination
examples. -/
def qsoWithId (id : Option Int) : QRZFetchedQSO :=
  ⟨str "K1AB", str "20m", str "CW", epoch, id, []⟩

/-- Full page of PAGE_SIZE records whose log identifiers are drawn from the
set 10, 45, 7, 45. -/
def pageC2 : List QRZFetchedQSO :=
  List.replicate 1997 (qsoWithId (some 10)) ++
    [qsoWithId (some 45), qsoWithId (some 7), qsoWithId (some 45)]

/-- Page oracle serving pageC2 for the initial cursor and nothing after. -/
def pagesC2 : Int → List QRZFetchedQSO :=
  fun a => if a = 0 then pageC2 else []

/-- Page oracle returning an empty page for every cursor. -/
def pagesC5 : Int → List QRZFetchedQSO := fun _ => []

/-- Page oracle returning a full page of records that all lack a log
identifier. -/
def pagesC6 : Int → List QRZFetchedQSO := fun _ => List.replicate 2000 (qsoWithId none)

/-- Whitespace characters stripped by Python str.strip() and tolerated
around an int() literal (ASCII range; the protocol text is ASCII). -/
def pyIsSpace (c : Char) : Bool :=
  c.toNat = 32 || c.toNat = 9 || c.toNat = 10 || c.toNat = 13 ||
    c.toNat = 11 || c.toNat = 12

/-- Python str.strip(): drop leading and trailing whitespace. -/
def pyStrip (s : List Char) : List Char :=
  ((s.dropWhile pyIsSpace).reverse.dropWhile pyIsSpace).reverse

/-- Decimal digit characters, the digits accepted inside an int() literal
(Unicode category Nd; the protocol uses the ASCII digits). -/
def isDecDigit (c : Char) : Bool := 48 ≤ c.toNat && c.toNat ≤ 57

/-- Numeric value of a list of decimal digit characters, most significant
first. -/
def digitsVal (ds : List Char) : Nat :=
  ds.foldl (fun a c => 10 * a + (c.toNat - 48)) 0

/-- Superscript digit characters of the Latin-1 and superscript blocks:
Python str.isdigit() is true for them (property Numeric_Type=Digit) even
though int() rejects them. -/
def isSuperscriptDigit (c : Char) : Bool :=
  c.toNat = 185 || c.toNat = 178 || c.toNat = 179 || c.toNat = 8304 ||
    (8308 ≤ c.toNat && c.toNat ≤ 8313)

/-- Character class of Python str.isdigit: decimal digits plus
digit-property characters such as the superscripts. -/
def pyCharIsDigit (c : Char) : Bool := isDecDigit c || isSuperscriptDigit c

/-- Model of Python str.isdigit(): true iff the string is nonempty and
every character is a digit in the above sense. -/
def pyIsDigit (s : List Char) : Bool := !s.isEmpty && s.all pyCharIsDigit

/-- Continuation of an int() digit literal after its first digit: further
digits, optionally separated by single underscores (no leading, trailing
or doubled underscore).  Returns the digits with underscores removed. -/
def udRest : List Char → Option (List Char)
  | [] => some []
  | c :: cs =>
    if c = '_' then
      match cs with
      | c2 :: cs2 =>
        if isDecDigit c2 then (udRest cs2).map (fun t => c2 :: t) else none
      | [] => none
    else if isDecDigit c then (udRest cs).map (fun t => c :: t) else none

/-- Digit part of an int() literal: at least one decimal digit, then
udRest. -/
def udParse : List Char → Option (List Char)
  | [] => none
  | c :: cs =>
    if isDecDigit c then (udRest cs).map (fun t => c :: t) else none

/-- Model of Python int(str): optional surrounding whitespace, an optional
sign, then decimal digits with optional single underscores between them.
none models the ValueError raised on any other shape (including digits of
Numeric_Type=Digit such as the superscript two). -/
def pyIntOfString (s : List Char) : Option Int :=
  match pyStrip s with
  | [] => none
  | c :: r =>
    if c = '+' then (udParse r).map (fun ds => (digitsVal ds : Int))
    else if c = '-' then (udParse r).map (fun ds => -(digitsVal ds : Int))
    else (udParse (c :: r)).map (fun ds => (digitsVal ds : Int))

/-- Python exception outcomes distinguished by the script: ValueError from
int(), and Exception with a message. -/
inductive PyErr where
  | valueError
  | exception (msg : List Char)
  deriving DecidableEq

/-- Model of the QRZStatusResponse dataclass. -/
structure QRZStatusResponse where
  callsign : List Char
  book_id : Option (List Char)
  qso_count : Int
  confirmed_count : Int
  deriving DecidableEq

/-- Python parsed.get(key, default). -/
def dgetD (d : List (List Char × List Char)) (k dflt : List Char) : List Char :=
  (dget d k).getD dflt

/-- Model of validate_api_key (lines 198-232) from the point where the
response has been decoded and parsed into a field mapping: interpret
RESULT/CALLSIGN, then build the status record, converting COUNT and
CONFIRMED with int() after defaulting them to "0" only when absent. -/
def validate_api_key (parsed : List (List Char × List Char)) :
    Except PyErr QRZStatusResponse :=
  if dgetD parsed (str "RESULT") [] ≠ str "OK" then
    if dgetD parsed (str "RESULT") [] = str "AUTH" then
      Except.error (PyErr.exception (str "QRZ XML Logbook Data subscription required"))
    else
      Except.error (PyErr.exception (str "API validation failed: " ++
        dgetD parsed (str "REASON")
          (str "Unknown error, RESULT=" ++ dgetD parsed (str "RESULT") [])))
  else if dgetD parsed (str "CALLSIGN") [] = [] then
    Except.error (PyErr.exception (str "No callsign in response"))
  else
    match pyIntOfString (dgetD parsed (str "COUNT") (str "0")),
        pyIntOfString (dgetD parsed (str "CONFIRMED") (str "0")) with
    | some qc, some cc =>
      Except.ok ⟨dgetD parsed (str "CALLSIGN") [], dget parsed (str "BOOKID"), qc, cc⟩
    | _, _ => Except.error PyErr.valueError

/-- Word characters of the regex class \w in the ASCII range (letters,
digits, underscore; the service's ADIF tag names are ASCII). -/
def isWordChar (c : Char) : Bool :=
  ('a' ≤ c && c ≤ 'z') || ('A' ≤ c && c ≤ 'Z') || isDecDigit c || c = '_'

/-- Python str.upper() on the ASCII tag names extracted by the scanner. -/
def pyUpper (s : List Char) : List Char := s.map Char.toUpper

/-- Expect one given character at the head of the input. -/
def expectChar (c : Char) : List Char → Option (List Char)
  | x :: r => if x = c then some r else none
  | [] => none

/-- Greedy nonempty character-class match, modelling \w+ and \d+ in the
field regex: fails when the first character is outside the class.  Regex
backtracking cannot shorten these runs usefully, because giving a class
character back leaves a class character where the following literal
(a colon or bracket) would have to match. -/
def takeWhile1 (p : Char → Bool) (l : List Char) : Option (List Char × List Char) :=
  if l.takeWhile p = [] then none else some (l.takeWhile p, l.dropWhile p)

/-- Optional type suffix (?::[^>]*)? of the field regex: when a colon
follows the length digits, consume it and the longest run of characters
other than the closing bracket. -/
def skipOptType (l : List Char) : List Char :=
  match l with
  | ':' :: r => r.dropWhile (fun c => decide (c ≠ '>'))
  | _ => l

/-- One attempted match of the field regex at the current position:
opening bracket, tag name (\w+), colon, length (\d+), optional type
suffix, closing bracket, then the value group ([^<]*), which stops at the
next opening bracket.  Returns the tag, the numeric length, the raw value
group, and the input remaining after the match. -/
def matchTlv (cs : List Char) : Option (List Char × Nat × List Char × List Char) :=
  (expectChar '<' cs).bind fun r =>
  (takeWhile1 isWordChar r).bind fun tr =>
  (expectChar ':' tr.2).bind fun r2 =>
  (takeWhile1 isDecDigit r2).bind fun dr =>
  (expectChar '>' (skipOptType dr.2)).bind fun r6 =>
  some (tr.1, digitsVal dr.1, r6.takeWhile (fun c => decide (c ≠ '<')),
    r6.dropWhile (fun c => decide (c ≠ '<')))

/-- Fuelled scan modelling re.finditer with the field regex over a record:
at each position try the regex; on a match emit the upper-cased tag name,
the declared length, and the value group truncated to that length
(match.group(3)[:field_len]), then continue after the match; otherwise
advance one character.  Fuel equal to the input length always suffices
because every step consumes at least one character. -/
def scanFieldTokensF : Nat → List Char → List (List Char × Nat × List Char)
  | 0, _ => []
  | fuel + 1, cs =>
    match matchTlv cs with
    | some (tag, n, v, rest) =>
      (pyUpper tag, n, v.take n) :: scanFieldTokensF fuel rest
    | none =>
      match cs with
      | [] => []
      | _ :: cr => scanFieldTokensF fuel cr

/-- Field tokens of a record, in match order. -/
def scanFieldTokens (cs : List Char) : List (List Char × Nat × List Char) :=
  scanFieldTokensF cs.length cs

/-- Field mapping of a record as built at lines 129-135: each regex match
assigns fields[name.upper()] = group(3)[:length], a repeated tag
overwriting the earlier value (dget prefers the rightmost entry). -/
def fieldsOf (record : List Char) : List (List Char × List Char) :=
  (scanFieldTokens record).map (fun t => (t.1, t.2.2))

/-- Read one decimal digit. -/
def rdDigit (c : Char) : Option Nat :=
  if isDecDigit c then some (c.toNat - 48) else none

/-- Two-digit regex alternative: matches when both characters are digits
and the pair satisfies ok. -/
def twoDigitAlt (ok : Nat → Nat → Bool) : List Char → List (Nat × List Char)
  | a :: b :: rest =>
    (match rdDigit a, rdDigit b with
     | some x, some y => if ok x y then [(10 * x + y, rest)] else []
     | _, _ => [])
  | _ => []

/-- One-digit regex alternative. -/
def oneDigitAlt (ok : Nat → Bool) : List Char → List (Nat × List Char)
  | a :: rest =>
    (match rdDigit a with
     | some x => if ok x then [(x, rest)] else []
     | none => [])
  | _ => []

/-- Regex fragment for %Y in _strptime: four digits. -/
def reYear : List Char → List (Nat × List Char)
  | a :: b :: c :: d :: rest =>
    (match rdDigit a, rdDigit b, rdDigit c, rdDigit d with
     | some w, some x, some y, some z => [(w * 1000 + x * 100 + y * 10 + z, rest)]
     | _, _, _, _ => [])
  | _ => []

/-- Regex fragment for %m: alternatives 1[0-2], 0[1-9], [1-9] in order. -/
def reMonth (s : List Char) : List (Nat × List Char) :=
  twoDigitAlt (fun x y => x = 1 && y ≤ 2) s ++
    twoDigitAlt (fun x y => x = 0 && 1 ≤ y) s ++
    oneDigitAlt (fun x => 1 ≤ x) s

/-- Regex fragment for %d: alternatives 3[01], [12]\d, 0[1-9], [1-9]. -/
def reDay (s : List Char) : List (Nat × List Char) :=
  twoDigitAlt (fun x y => x = 3 && y ≤ 1) s ++
    twoDigitAlt (fun x _ => x = 1 || x = 2) s ++
    twoDigitAlt (fun x y => x = 0 && 1 ≤ y) s ++
    oneDigitAlt (fun x => 1 ≤ x) s

/-- Regex fragment for %H: alternatives 2[0-3], [0-1]\d, \d. -/
def reHour (s : List Char) : List (Nat × List Char) :=
  twoDigitAlt (fun x y => x = 2 && y ≤ 3) s ++
    twoDigitAlt (fun x _ => x ≤ 1) s ++
    oneDigitAlt (fun _ => true) s

/-- Regex fragment for %M: alternatives [0-5]\d, \d. -/
def reMinute (s : List Char) : List (Nat × List Char) :=
  twoDigitAlt (fun x _ => x ≤ 5) s ++ oneDigitAlt (fun _ => true) s

/-- Regex fragment for %S: alternatives 6[0-1], [0-5]\d, \d (leap seconds
are matched by the regex and rejected later by the datetime
constructor). -/
def reSecond (s : List Char) : List (Nat × List Char) :=
  twoDigitAlt (fun x y => x = 6 && y ≤ 1) s ++
    twoDigitAlt (fun x _ => x ≤ 5) s ++
    oneDigitAlt (fun _ => true) s

/-- Candidate matches of the %Y%m%d%H%M%S regex, in the order the
backtracking engine tries them (alternatives of later fields vary
fastest). -/
def stampsYmdHMS (s : List Char) :
    List ((Nat × Nat × Nat × Nat × Nat × Nat) × List Char) :=
  (reYear s).flatMap fun yr =>
  (reMonth yr.2).flatMap fun mo =>
  (reDay mo.2).flatMap fun dy =>
  (reHour dy.2).flatMap fun hr =>
  (reMinute hr.2).flatMap fun mi =>
  (reSecond mi.2).map fun se =>
  ((yr.1, mo.1, dy.1, hr.1, mi.1, se.1), se.2)

/-- Candidate matches of the %Y%m%d regex. -/
def stampsYmd (s : List Char) : List ((Nat × Nat × Nat) × List Char) :=
  (reYear s).flatMap fun yr =>
  (reMonth yr.2).flatMap fun mo =>
  (reDay mo.2).map fun dy =>
  ((yr.1, mo.1, dy.1), dy.2)

/-- Leap years of the proleptic Gregorian calendar used by datetime. -/
def isLeapYear (y : Nat) : Bool := y % 4 = 0 && (y % 100 ≠ 0 || y % 400 = 0)

/-- Length of a month. -/
def daysInMonth (y m : Nat) : Nat :=
  if m = 2 then (if isLeapYear y then 29 else 28)
  else if m = 4 || m = 6 || m = 9 || m = 11 then 30
  else 31

/-- Python datetime(year, month, day, hour, minute, second) construction:
none models the ValueError raised outside the documented field ranges. -/
def mkDatetime (y mo d h mi s : Nat) : Option PyDateTime :=
  if 1 ≤ y && y ≤ 9999 && 1 ≤ mo && mo ≤ 12 && 1 ≤ d && d ≤ daysInMonth y mo
      && h ≤ 23 && mi ≤ 59 && s ≤ 59 then
    some ⟨y, mo, d, h, mi, s⟩
  else none

/-- Model of datetime.strptime(s, "%Y%m%d%H%M%S"): the engine returns the
first candidate match; strptime raises (none) when that match leaves
unconverted data or the datetime constructor rejects the fields. -/
def strptimeYmdHMS (s : List Char) : Option PyDateTime :=
  match (stampsYmdHMS s).head? with
  | some ((y, mo, d, h, mi, se), rest) =>
    if rest = [] then mkDatetime y mo d h mi se else none
  | none => none

/-- Model of datetime.strptime(s, "%Y%m%d"): date-only, midnight. -/
def strptimeYmd (s : List Char) : Option PyDateTime :=
  match (stampsYmd s).head? with
  | some ((y, mo, d), rest) => if rest = [] then mkDatetime y mo d 0 0 0 else none
  | none => none

/-- Python time_on.ljust(6, "0")[:6]: pad on the right with zeros to six
characters, truncating longer strings to six. -/
def pyLjust6 (t : List Char) : List Char :=
  if t.length < 6 then t ++ List.replicate (6 - t.length) '0' else t.take 6

/-- Timestamp derivation of parse_adif_records (lines 143-155): for a
non-empty QSO_DATE, parse date plus right-padded time as %Y%m%d%H%M%S when
TIME_ON is non-empty, or the date alone as %Y%m%d; the except-ValueError
handler leaves the timestamp unset on any parse failure. -/
def deriveTimestamp (qso_date time_on : List Char) : Option PyDateTime :=
  if qso_date ≠ [] then
    if time_on ≠ [] then strptimeYmdHMS (qso_date ++ pyLjust6 time_on)
    else strptimeYmd qso_date
  else none

/-- ASCII lower-casing, used for the case-insensitive end-of-record
marker. -/
def lcAscii (c : Char) : Char :=
  if 'A' ≤ c && c ≤ 'Z' then Char.ofNat (c.toNat + 32) else c

/-- True when the input starts with the end-of-record marker, matched
case-insensitively. -/
def isEorAt (s : List Char) : Bool :=
  decide ((s.take 5).map lcAscii = str "<eor>")

/-- Fuelled model of re.split on the pattern eor-in-brackets with
IGNORECASE (line 122): scan left to right, cutting a segment at each
occurrence of the five-character marker.  Fuel equal to the input length
suffices because every step consumes at least one character. -/
def splitEorF : Nat → List Char → List (List Char)
  | 0, s => [s]
  | fuel + 1, s =>
    if isEorAt s then [] :: splitEorF fuel (s.drop 5)
    else
      match s with
      | [] => [[]]
      | c :: cr =>
        match splitEorF fuel cr with
        | seg :: segs => (c :: seg) :: segs
        | [] => [[c]]

/-- Record segments of the ADIF payload. -/
def splitEor (s : List Char) : List (List Char) := splitEorF s.length s

/-- Log-identifier extraction (lines 157-159): int(value) when
value.isdigit(), else None.  The outer Option is the exception channel
(none models the ValueError that a digit-property, non-decimal value makes
int() raise); the inner Option is the optional identifier. -/
def extractLogId (s : List Char) : Option (Option Int) :=
  if pyIsDigit s then (pyIntOfString s).map some else some none

/-- Per-record body of the parse_adif_records loop (lines 124-169): skip
whitespace-only records, scan the fields, derive the timestamp
(substituting now on failure), extract the log identifier (which can
raise), and emit a record exactly when CALL, BAND and MODE are all
non-empty.  raw_adif is the stripped record text. -/
def processRecord (now : PyDateTime) (record : List Char) :
    Except PyErr (Option QRZFetchedQSO) :=
  if pyStrip record = [] then Except.ok none
  else
    match extractLogId ((dget (fieldsOf record) (str "APP_QRZLOG_LOGID")).getD []) with
    | none => Except.error PyErr.valueError
    | some log_id =>
      if (dget (fieldsOf record) (str "CALL")).getD [] ≠ [] ∧
          (dget (fieldsOf record) (str "BAND")).getD [] ≠ [] ∧
          (dget (fieldsOf record) (str "MODE")).getD [] ≠ [] then
        Except.ok (some
          ⟨(dget (fieldsOf record) (str "CALL")).getD [],
            (dget (fieldsOf record) (str "BAND")).getD [],
            (dget (fieldsOf record) (str "MODE")).getD [],
            (deriveTimestamp ((dget (fieldsOf record) (str "QSO_DATE")).getD [])
                ((dget (fieldsOf record) (str "TIME_ON")).getD [])).getD now,
            log_id, pyStrip record⟩)
      else Except.ok none

/-- Tail-recursive loop over the record segments, mirroring the for loop
of parse_adif_records: records accumulate in order, and a raised
ValueError aborts the whole call. -/
def parseAdifGo (now : PyDateTime) :
    List (List Char) → List QRZFetchedQSO → Except PyErr (List QRZFetchedQSO)
  | [], acc => Except.ok acc
  | r :: rs, acc =>
    match processRecord now r with
    | Except.error e => Except.error e
    | Except.ok none => parseAdifGo now rs acc
    | Except.ok (some q) => parseAdifGo now rs (acc ++ [q])

/-- Model of parse_adif_records (lines 117-171).  The now argument is the
wall-clock value datetime.now() would return, threaded in explicitly. -/
def parse_adif_records (now : PyDateTime) (adif : List Char) :
    Except PyErr (List QRZFetchedQSO) :=
  parseAdifGo now (splitEor adif) []

theorem dget_append (a b : List (List Char × List Char)) (k : List Char) :
    dget (a ++ b) k =
      match dget b k with
      | some w => some w
      | none => dget a k := by
  induction a with
  | nil => simp [dget]; cases dget b k <;> rfl
  | cons p rest ih =>
    obtain ⟨k', v'⟩ := p
    simp only [List.cons_append, dget]
    have ha : (rest.append b) = rest ++ b := rfl
    rw [ha, ih]
    cases dget b k <;> cases dget rest k <;> rfl

theorem foldl_skip_empty_eq (pairs : List (List Char))
    (d : List (List Char × List Char)) :
    pairs.foldl (fun d pair => if pair = [] then d else foldPair d pair) d =
      pairs.foldl (fun d pair => foldPair d pair) d := by
  have hfun : ∀ (d : List (List Char × List Char)) (pair : List Char),
      (if pair = [] then d else foldPair d pair) = foldPair d pair := by
    intro d pair
    by_cases hp : pair = []
    · subst hp; simp [foldPair, splitFirstEq]
    · simp [hp]
  simp only [hfun]

theorem findSub_take_none {pat s : List Char} {i : Nat} (hne : pat ≠ [])
    (h : findSub pat s = some i) : findSub pat (s.take i) = none := by
  induction s generalizing i with
  | nil =>
    simp [findSub, List.isPrefixOf_iff_prefix, List.prefix_nil, hne] at h
  | cons c t ih =>
    by_cases hp : pat.isPrefixOf (c :: t)
    · simp only [findSub, if_pos hp] at h
      have hi : i = 0 := by injection h with h0; omega
      subst hi
      simp [findSub, List.isPrefixOf_iff_prefix, List.prefix_nil, hne]
    · simp only [findSub, if_neg hp, Option.map_eq_some'] at h
      obtain ⟨j, hj, hji⟩ := h
      subst hji
      simp only [List.take_succ_cons, findSub]
      have hnp : ¬ pat.isPrefixOf (c :: t.take j) := by
        intro habs
        apply hp
        rw [List.isPrefixOf_iff_prefix] at habs ⊢
        refine habs.trans ?_
        rw [List.cons_prefix_cons]
        exact ⟨rfl, List.take_prefix j t⟩
      simp [hnp, ih hj]

/-- C1: for a response containing the marker "ADIF=", parse_response binds
key "ADIF" to the exact text after the first occurrence of the marker, and
every other key is looked up exactly as in the parse of the marker-free
prefix. -/
theorem c1_parse_response_adif_split (s : List Char) (i : Nat)
    (h : findSub adifMarker s = some i) (k : List Char) :
    dget (parse_response s) k =
      if k = adifKey then some (s.drop (i + adifMarker.length))
      else dget (parse_response (s.take i)) k := by
  have hpre : findSub adifMarker (s.take i) = none :=
    findSub_take_none (by decide) h
  unfold parse_response
  rw [h, hpre]
  rw [dget_append]
  by_cases hk : k = adifKey
  · subst hk
    simp [dget]
  · have hne2 : ¬ adifKey = k := fun habs => hk habs.symm
    rw [if_neg hk]
    simp only [dget, if_neg hne2]
    rw [foldl_skip_empty_eq]

/-- C1 witness: concrete response with delimiter characters inside the ADIF
payload. -/
theorem c1_parse_response_adif_split_witness :
    dget (parse_response (str "RESULT=OK&COUNT=2&ADIF=a&b=c<call:4>K1AB")) (str "COUNT") =
      (if (str "COUNT") = adifKey then some ((str "RESULT=OK&COUNT=2&ADIF=a&b=c<call:4>K1AB").drop (18 + adifMarker.length))
       else dget (parse_response ((str "RESULT=OK&COUNT=2&ADIF=a&b=c<call:4>K1AB").take 18)) (str "COUNT")) :=
  c1_parse_response_adif_split (str "RESULT=OK&COUNT=2&ADIF=a&b=c<call:4>K1AB") 18
    (by decide) (str "COUNT")

theorem foldl_max_ge_init (l : List Int) (b : Int) : b ≤ l.foldl max b := by
  induction l generalizing b with
  | nil => simp
  | cons x t ih => exact le_trans (le_max_left b x) (ih (max b x))

theorem foldl_max_ge_mem {l : List Int} {a : Int} (h : a ∈ l) (b : Int) :
    a ≤ l.foldl max b := by
  induction l generalizing b with
  | nil => cases h
  | cons x t ih =>
    rcases List.mem_cons.mp h with h1 | h2
    · subst h1
      exact le_trans (le_max_right b a) (foldl_max_ge_init t (max b a))
    · exact ih h2 (max b x)

theorem foldl_max_le {l : List Int} {b c : Int} (hb : b ≤ c)
    (h : ∀ a ∈ l, a ≤ c) : l.foldl max b ≤ c := by
  induction l generalizing b with
  | nil => simpa using hb
  | cons x t ih =>
    simp only [List.foldl_cons]
    exact ih (max_le hb (h x (List.mem_cons_self x t)))
      fun a ha => h a (List.mem_cons_of_mem x ha)

theorem computeMaxLogId_pos_eq (page : List QRZFetchedQSO)
    (hpos : ∀ q ∈ page, 0 < q.log_id.getD 0) :
    computeMaxLogId page = (page.map (fun q => q.log_id.getD 0)).foldl max 0 := by
  unfold computeMaxLogId
  rw [List.foldl_map]
  suffices hgen : ∀ (l : List QRZFetchedQSO), (∀ q ∈ l, 0 < q.log_id.getD 0) →
      ∀ (b : Int),
      l.foldl (fun m q =>
        match q.log_id with
        | some n => if n ≠ 0 then max m n else m
        | none => m) b = l.foldl (fun m q => max m (q.log_id.getD 0)) b by
    exact hgen page hpos 0
  intro l hl
  induction l with
  | nil => intro b; rfl
  | cons q t ih =>
    intro b
    have hq := hl q (List.mem_cons_self q t)
    simp only [List.foldl_cons]
    rcases hid : q.log_id with _ | n
    · rw [hid] at hq; simp at hq
    · rw [hid] at hq
      simp only [Option.getD_some] at hq
      have hn0 : n ≠ 0 := by omega
      simp only [hid, if_pos hn0, Option.getD_some]
      exact ih (fun p hp => hl p (List.mem_cons_of_mem q hp)) (max b n)

theorem computeMaxLogId_zero (page : List QRZFetchedQSO)
    (h : ∀ q ∈ page, q.log_id.getD 0 = 0) : computeMaxLogId page = 0 := by
  unfold computeMaxLogId
  suffices hgen : ∀ (l : List QRZFetchedQSO), (∀ q ∈ l, q.log_id.getD 0 = 0) →
      ∀ (b : Int),
      l.foldl (fun m q =>
        match q.log_id with
        | some n => if n ≠ 0 then max m n else m
        | none => m) b = b by
    exact hgen page h 0
  intro l hl
  induction l with
  | nil => intro b; rfl
  | cons q t ih =>
    intro b
    have hq := hl q (List.mem_cons_self q t)
    simp only [List.foldl_cons]
    rcases hid : q.log_id with _ | n
    · simp only [hid]
      exact ih (fun p hp => hl p (List.mem_cons_of_mem q hp)) b
    · rw [hid] at hq
      simp only [Option.getD_some] at hq
      simp only [hid, hq, if_neg (by omega : ¬ ((0 : Int) ≠ 0))]
      exact ih (fun p hp => hl p (List.mem_cons_of_mem q hp)) b

/-- C2: after a full page whose records all carry truthy log identifiers
with maximum m, the loop continues and the next request is issued with
AFTERLOGID = m + 1 (the page having been appended to the accumulator
first). -/
theorem c2_pagination_cursor_advance (pages : Int → List QRZFetchedQSO)
    (fuel : Nat) (a : Int) (acc : List QRZFetchedQSO) (m : Int)
    (hlen : (pages a).length = PAGE_SIZE)
    (hpos : ∀ q ∈ pages a, 0 < q.log_id.getD 0)
    (hmem : ∃ q ∈ pages a, q.log_id = some m)
    (hle : ∀ q ∈ pages a, q.log_id.getD 0 ≤ m) :
    fetchLoopModel pages (fuel + 1) a acc =
      fetchLoopModel pages fuel (m + 1) (acc ++ pages a) := by
  obtain ⟨q0, hq0mem, hq0⟩ := hmem
  have hm_pos : 0 < m := by
    have hp := hpos q0 hq0mem
    rw [hq0] at hp
    simpa using hp
  have hM : computeMaxLogId (pages a) = m := by
    rw [computeMaxLogId_pos_eq _ hpos]
    apply le_antisymm
    · refine foldl_max_le (by omega) fun x hx => ?_
      obtain ⟨q, hq, hxq⟩ := List.mem_map.mp hx
      have hxg := hle q hq
      rw [hxq] at hxg
      exact hxg
    · exact foldl_max_ge_mem
        (List.mem_map.mpr ⟨q0, hq0mem, by rw [hq0]; rfl⟩) 0
  have hdec : pageDecision (pages a) = ContinuationDecision.nextPage (m + 1) := by
    unfold pageDecision
    rw [hlen, hM]
    rw [if_neg (lt_irrefl PAGE_SIZE), if_neg (by omega : ¬ (m = 0))]
  simp only [fetchLoopModel]
  rw [hdec]

theorem pagesC2_zero : pagesC2 0 = pageC2 := by
  simp [pagesC2]

theorem pageC2_mem (q : QRZFetchedQSO) (hq : q ∈ pageC2) :
    q = qsoWithId (some 10) ∨ q = qsoWithId (some 45) ∨ q = qsoWithId (some 7) := by
  rcases List.mem_append.mp hq with h | h
  · exact Or.inl (List.eq_of_mem_replicate h)
  · simp only [List.mem_cons, List.not_mem_nil, or_false] at h
    rcases h with h | h | h
    · exact Or.inr (Or.inl h)
    · exact Or.inr (Or.inr h)
    · exact Or.inr (Or.inl h)

/-- C2 witness: a full page of 2000 records whose log identifiers are drawn
from the set 10, 45, 7, 45 advances the cursor so that the next request
uses AFTERLOGID = 46. -/
theorem c2_pagination_cursor_advance_witness :
    fetchLoopModel pagesC2 1 0 [] = fetchLoopModel pagesC2 0 (45 + 1) ([] ++ pagesC2 0) :=
  c2_pagination_cursor_advance pagesC2 0 0 [] 45
    (by
      rw [pagesC2_zero]
      show (List.replicate 1997 (qsoWithId (some 10)) ++
        [qsoWithId (some 45), qsoWithId (some 7), qsoWithId (some 45)]).length = PAGE_SIZE
      rw [List.length_append, List.length_replicate]
      rfl)
    (by
      rw [pagesC2_zero]
      intro q hq
      rcases pageC2_mem q hq with h | h | h <;> subst h <;> decide)
    (by
      rw [pagesC2_zero]
      exact ⟨qsoWithId (some 45),
        List.mem_append_right _ (List.mem_cons_self _ _), rfl⟩)
    (by
      rw [pagesC2_zero]
      intro q hq
      rcases pageC2_mem q hq with h | h | h <;> subst h <;> decide)

/-- C5: whenever a page holds strictly fewer records than PAGE_SIZE, the
loop breaks with normal completion after appending that page to the
accumulated result, regardless of the page's log identifiers, of the
remaining fuel, and of what the oracle would serve for any further
request. -/
theorem c5_short_page_terminates (pages : Int → List QRZFetchedQSO)
    (fuel : Nat) (a : Int) (acc : List QRZFetchedQSO)
    (h : (pages a).length < PAGE_SIZE) :
    fetchLoopModel pages (fuel + 1) a acc = LoopResult.completed (acc ++ pages a) := by
  have hdec : pageDecision (pages a) = ContinuationDecision.lastPage := by
    unfold pageDecision
    rw [if_pos h]
  simp only [fetchLoopModel]
  rw [hdec]

/-- C5 witness: an empty (hence short) page ends the loop at once with the
page appended. -/
theorem c5_short_page_terminates_witness :
    fetchLoopModel pagesC5 3 0 [] = LoopResult.completed ([] ++ pagesC5 0) :=
  c5_short_page_terminates pagesC5 2 0 [] (by decide)

/-- C6: a full page in which no record carries a truthy log identifier
(each log_id is either absent or zero, so max_log_id stays 0) makes the
loop stop through the cannot-paginate error branch, an outcome distinct
from normal completion. -/
theorem c6_full_page_stall (pages : Int → List QRZFetchedQSO)
    (fuel : Nat) (a : Int) (acc : List QRZFetchedQSO)
    (hlen : (pages a).length = PAGE_SIZE)
    (hids : ∀ q ∈ pages a, q.log_id.getD 0 = 0) :
    fetchLoopModel pages (fuel + 1) a acc = LoopResult.stalled (acc ++ pages a) ∧
      LoopResult.stalled (acc ++ pages a) ≠ LoopResult.completed (acc ++ pages a) := by
  constructor
  · have hM := computeMaxLogId_zero _ hids
    have hdec : pageDecision (pages a) = ContinuationDecision.stall := by
      unfold pageDecision
      rw [hlen, hM, if_neg (lt_irrefl PAGE_SIZE), if_pos rfl]
    simp only [fetchLoopModel]
    rw [hdec]
  · intro habs
    cases habs

/-- C6 witness: a full page of 2000 records without log identifiers stalls
immediately, and the stalled outcome differs from completion. -/
theorem c6_full_page_stall_witness :
    fetchLoopModel pagesC6 1 0 [] = LoopResult.stalled ([] ++ pagesC6 0) ∧
      LoopResult.stalled ([] ++ pagesC6 0) ≠ LoopResult.completed ([] ++ pagesC6 0) :=
  c6_full_page_stall pagesC6 0 0 []
    (by
      show (List.replicate 2000 (qsoWithId none)).length = PAGE_SIZE
      rw [List.length_replicate]
      rfl)
    (by
      intro q hq
      have hq2 : q = qsoWithId none := List.eq_of_mem_replicate hq
      subst hq2
      rfl)

/-- C7 counterexample: with RESULT=OK, a non-empty CALLSIGN and a present
but non-numeric COUNT value, the status check raises ValueError instead of
defaulting the count to 0. -/
theorem c7_count_nonnumeric_raises :
    validate_api_key
        [(str "RESULT", str "OK"), (str "CALLSIGN", str "W1AW"),
          (str "COUNT", str "N/A")] =
      Except.error PyErr.valueError := by
  rfl

/-- C7 as amended: the defensive default to 0 applies only when COUNT and
CONFIRMED are absent from the response; in that case the status check
succeeds with both numeric fields 0. -/
theorem c7_amended_numeric_defaults (parsed : List (List Char × List Char))
    (c : List Char)
    (hres : dgetD parsed (str "RESULT") [] = str "OK")
    (hcall : dgetD parsed (str "CALLSIGN") [] = c)
    (hc : c ≠ [])
    (hcount : dget parsed (str "COUNT") = none)
    (hconf : dget parsed (str "CONFIRMED") = none) :
    validate_api_key parsed =
      Except.ok ⟨c, dget parsed (str "BOOKID"), 0, 0⟩ := by
  have hcountD : dgetD parsed (str "COUNT") (str "0") = str "0" := by
    unfold dgetD
    rw [hcount]
    rfl
  have hconfD : dgetD parsed (str "CONFIRMED") (str "0") = str "0" := by
    unfold dgetD
    rw [hconf]
    rfl
  unfold validate_api_key
  rw [hres, hcall, hcountD, hconfD]
  rw [if_neg (by simp), if_neg hc]
  rfl

/-- C7 witness: a response with only RESULT and CALLSIGN yields a
successful status with both counts defaulted to 0. -/
theorem c7_amended_numeric_defaults_witness :
    validate_api_key [(str "RESULT", str "OK"), (str "CALLSIGN", str "W1AW")] =
      Except.ok ⟨str "W1AW",
        dget [(str "RESULT", str "OK"), (str "CALLSIGN", str "W1AW")] (str "BOOKID"),
        0, 0⟩ :=
  c7_amended_numeric_defaults
    [(str "RESULT", str "OK"), (str "CALLSIGN", str "W1AW")] (str "W1AW")
    (by decide) (by decide) (by decide) (by decide) (by decide)

theorem expectChar_eq {c : Char} {l r : List Char}
    (h : expectChar c l = some r) : l = c :: r := by
  cases l with
  | nil => cases h
  | cons x t =>
    simp only [expectChar] at h
    by_cases hx : x = c
    · rw [if_pos hx] at h
      injection h with h1
      rw [hx, h1]
    · rw [if_neg hx] at h
      cases h

theorem takeWhile1_eq {p : Char → Bool} {l a b : List Char}
    (h : takeWhile1 p l = some (a, b)) :
    a = l.takeWhile p ∧ b = l.dropWhile p ∧ a ≠ [] := by
  unfold takeWhile1 at h
  by_cases h0 : l.takeWhile p = []
  · rw [if_pos h0] at h; cases h
  · rw [if_neg h0] at h
    injection h with h1
    injection h1 with h2 h3
    exact ⟨h2.symm, h3.symm, h2.symm ▸ h0⟩

theorem dropWhile_length_lt {p : Char → Bool} {l : List Char}
    (h : l.takeWhile p ≠ []) : (l.dropWhile p).length < l.length := by
  have hsplit := List.takeWhile_append_dropWhile (p := p) (l := l)
  have hlen := congrArg List.length hsplit
  rw [List.length_append] at hlen
  have hpos : 0 < (l.takeWhile p).length := List.length_pos.mpr h
  omega

theorem skipOptType_length_le (l : List Char) :
    (skipOptType l).length ≤ l.length := by
  unfold skipOptType
  split
  · next r =>
    have hs := (List.dropWhile_sublist (l := r)
      (p := fun c => decide (c ≠ '>'))).length_le
    simp only [List.length_cons]
    omega
  · exact le_refl _

theorem matchTlv_rest_length {cs tag : List Char} {n : Nat} {v rest : List Char}
    (h : matchTlv cs = some (tag, n, v, rest)) : rest.length < cs.length := by
  unfold matchTlv at h
  simp only [Option.bind_eq_some] at h
  obtain ⟨r, h1, tr, h2, r2, h3, dr, h4, r6, h5, h6⟩ := h
  obtain ⟨tg, r1⟩ := tr
  obtain ⟨ds, r3⟩ := dr
  have e1 := expectChar_eq h1
  obtain ⟨ht1, ht2, ht3⟩ := takeWhile1_eq h2
  have e3 : r1 = ':' :: r2 := expectChar_eq h3
  obtain ⟨hd1, hd2, hd3⟩ := takeWhile1_eq h4
  have e5 : skipOptType r3 = '>' :: r6 := expectChar_eq h5
  have hrest : rest = r6.dropWhile (fun c => decide (c ≠ '<')) := by
    simp only [Option.some.injEq, Prod.mk.injEq] at h6
    exact h6.2.2.2.symm
  have l0 : rest.length ≤ r6.length := by
    rw [hrest]
    exact (List.dropWhile_sublist _).length_le
  have l1 : r6.length < (skipOptType r3).length := by
    rw [e5]; simp
  have l2 : (skipOptType r3).length ≤ r3.length := skipOptType_length_le r3
  have l3 : r3.length < r2.length := by
    rw [hd2]
    apply dropWhile_length_lt
    rw [← hd1]
    exact hd3
  have l4 : r2.length < r1.length := by
    rw [e3]; simp
  have l5 : r1.length < r.length := by
    rw [ht2]
    apply dropWhile_length_lt
    rw [← ht1]
    exact ht3
  have l6 : r.length < cs.length := by
    rw [e1]; simp
  omega

theorem scanFieldTokensF_nil (fuel : Nat) : scanFieldTokensF fuel [] = [] := by
  cases fuel with
  | zero => rfl
  | succ f => rfl

theorem scanFieldTokensF_irrel (f1 : Nat) :
    ∀ (f2 : Nat) (cs : List Char), cs.length ≤ f1 → cs.length ≤ f2 →
      scanFieldTokensF f1 cs = scanFieldTokensF f2 cs := by
  induction f1 with
  | zero =>
    intro f2 cs h1 h2
    have : cs = [] := List.length_eq_zero.mp (by omega)
    subst this
    rw [scanFieldTokensF_nil, scanFieldTokensF_nil]
  | succ f ih =>
    intro f2 cs h1 h2
    cases f2 with
    | zero =>
      have : cs = [] := List.length_eq_zero.mp (by omega)
      subst this
      rw [scanFieldTokensF_nil, scanFieldTokensF_nil]
    | succ f2' =>
      simp only [scanFieldTokensF]
      cases hm : matchTlv cs with
      | some t =>
        obtain ⟨tag, n, v, rest⟩ := t
        have hlt := matchTlv_rest_length hm
        dsimp only
        rw [ih f2' rest (by omega) (by omega)]
      | none =>
        cases cs with
        | nil => rfl
        | cons c cr =>
          simp only [List.length_cons] at h1 h2
          dsimp only
          exact ih f2' cr (by omega) (by omega)

theorem scanFieldTokens_matched {cs tag : List Char} {n : Nat} {v rest : List Char}
    (h : matchTlv cs = some (tag, n, v, rest)) :
    scanFieldTokens cs = (pyUpper tag, n, v.take n) :: scanFieldTokens rest := by
  cases cs with
  | nil =>
    exact absurd h (by unfold matchTlv expectChar; simp)
  | cons c cr =>
    unfold scanFieldTokens
    simp only [List.length_cons, scanFieldTokensF, h]
    have hlt := matchTlv_rest_length h
    simp only [List.length_cons] at hlt
    rw [scanFieldTokensF_irrel cr.length rest.length rest (by omega) (by omega)]

theorem takeWhile_append_all {p : Char → Bool} {a : List Char} (b : List Char)
    (ha : ∀ c ∈ a, p c = true) :
    (a ++ b).takeWhile p = a ++ b.takeWhile p := by
  induction a with
  | nil => rfl
  | cons x t ih =>
    have hx := ha x (List.mem_cons_self x t)
    simp only [List.cons_append, List.takeWhile_cons, hx]
    rw [ih fun c hc => ha c (List.mem_cons_of_mem x hc)]
    simp

theorem dropWhile_append_all {p : Char → Bool} {a : List Char} (b : List Char)
    (ha : ∀ c ∈ a, p c = true) :
    (a ++ b).dropWhile p = b.dropWhile p := by
  induction a with
  | nil => rfl
  | cons x t ih =>
    have hx := ha x (List.mem_cons_self x t)
    simp only [List.cons_append, List.dropWhile_cons, hx]
    exact ih fun c hc => ha c (List.mem_cons_of_mem x hc)

/-- C4 counterexample: in the record <CALL:5>AB<CD:1>X the CALL token
declares length 5, and the five characters immediately following its
closing bracket are AB<CD; but the parser's value group stops at the next
opening bracket, so the extracted CALL value is AB. -/
theorem c4_value_not_exact_length :
    dget (fieldsOf (str "<CALL:5>AB<CD:1>X")) (str "CALL") = some (str "AB") ∧
      str "AB" ≠ str "AB<CD" := by
  constructor
  · rfl
  · decide

/-- C4 as amended: for a well-formed token whose declared length is covered
by bracket-free characters immediately after the closing bracket, the
extracted field value is exactly those LENGTH characters (whatever they
contain otherwise); value regions reaching a subsequent opening bracket
are truncated there by the [^<]* value group, as the counterexample
shows. -/
theorem c4_amended_exact_when_no_bracket (tag ds v rest : List Char)
    (htag : tag ≠ []) (htagw : ∀ c ∈ tag, isWordChar c = true)
    (hds : ds ≠ []) (hdsd : ∀ c ∈ ds, isDecDigit c = true)
    (hv : ∀ c ∈ v, c ≠ '<')
    (hlen : v.length = digitsVal ds) :
    scanFieldTokens ('<' :: (tag ++ (':' :: (ds ++ ('>' :: (v ++ rest)))))) =
      (pyUpper tag, digitsVal ds, v) ::
        scanFieldTokens ((v ++ rest).dropWhile (fun c => decide (c ≠ '<'))) := by
  have hvb : ∀ c ∈ v, (fun c => decide (c ≠ '<')) c = true := by
    intro c hc
    simp [hv c hc]
  have hcol : isWordChar ':' = false := by decide
  have hgt : isDecDigit '>' = false := by decide
  have h1 : expectChar '<' ('<' :: (tag ++ (':' :: (ds ++ ('>' :: (v ++ rest)))))) =
      some (tag ++ (':' :: (ds ++ ('>' :: (v ++ rest))))) := by
    simp [expectChar]
  have hta : (tag ++ (':' :: (ds ++ ('>' :: (v ++ rest))))).takeWhile isWordChar = tag := by
    rw [takeWhile_append_all _ htagw]
    simp [List.takeWhile_cons, hcol]
  have htd : (tag ++ (':' :: (ds ++ ('>' :: (v ++ rest))))).dropWhile isWordChar =
      ':' :: (ds ++ ('>' :: (v ++ rest))) := by
    rw [dropWhile_append_all _ htagw]
    simp [List.dropWhile_cons, hcol]
  have h2 : takeWhile1 isWordChar (tag ++ (':' :: (ds ++ ('>' :: (v ++ rest))))) =
      some (tag, ':' :: (ds ++ ('>' :: (v ++ rest)))) := by
    unfold takeWhile1
    rw [hta, htd, if_neg htag]
  have h3 : expectChar ':' (':' :: (ds ++ ('>' :: (v ++ rest)))) =
      some (ds ++ ('>' :: (v ++ rest))) := by
    simp [expectChar]
  have hda : (ds ++ ('>' :: (v ++ rest))).takeWhile isDecDigit = ds := by
    rw [takeWhile_append_all _ hdsd]
    simp [List.takeWhile_cons, hgt]
  have hdd : (ds ++ ('>' :: (v ++ rest))).dropWhile isDecDigit = '>' :: (v ++ rest) := by
    rw [dropWhile_append_all _ hdsd]
    simp [List.dropWhile_cons, hgt]
  have h4 : takeWhile1 isDecDigit (ds ++ ('>' :: (v ++ rest))) =
      some (ds, '>' :: (v ++ rest)) := by
    unfold takeWhile1
    rw [hda, hdd, if_neg hds]
  have h5 : skipOptType ('>' :: (v ++ rest)) = '>' :: (v ++ rest) := rfl
  have h6 : expectChar '>' ('>' :: (v ++ rest)) = some (v ++ rest) := by
    simp [expectChar]
  have hm : matchTlv ('<' :: (tag ++ (':' :: (ds ++ ('>' :: (v ++ rest)))))) =
      some (tag, digitsVal ds, (v ++ rest).takeWhile (fun c => decide (c ≠ '<')),
        (v ++ rest).dropWhile (fun c => decide (c ≠ '<'))) := by
    unfold matchTlv
    rw [h1]
    simp only [Option.some_bind]
    rw [h2]
    simp only [Option.some_bind]
    rw [h3]
    simp only [Option.some_bind]
    rw [h4]
    simp only [Option.some_bind]
    rw [h5, h6]
    simp only [Option.some_bind]
  rw [scanFieldTokens_matched hm]
  rw [takeWhile_append_all _ hvb]
  rw [← hlen, List.take_left]

/-- C4 witness: a CALL token of declared length 4 followed by exactly four
bracket-free characters yields that value exactly, with scanning resuming
at the following token. -/
theorem c4_amended_exact_when_no_bracket_witness :
    scanFieldTokens ('<' :: (str "CALL" ++ (':' :: (str "4" ++
        ('>' :: (str "W1AW" ++ str "<Z:1>Q")))))) =
      (pyUpper (str "CALL"), digitsVal (str "4"), str "W1AW") ::
        scanFieldTokens ((str "W1AW" ++ str "<Z:1>Q").dropWhile
          (fun c => decide (c ≠ '<'))) :=
  c4_amended_exact_when_no_bracket (str "CALL") (str "4") (str "W1AW") (str "<Z:1>Q")
    (by decide) (by decide) (by decide) (by decide) (by decide) (by decide)

/-- C3 counterexample: for QSO_DATE=20230615 and TIME_ON=930 the
right-padded time string is 930000, whose first strptime match reads hour
9, minute 30, second 00 and leaves one unconverted character, so the parse
raises and no 2023-06-15 09:30:00 timestamp is derived; the record is
emitted with the substituted wall-clock time (here epoch) instead. -/
theorem c3_time930_falls_back_to_now :
    deriveTimestamp (str "20230615") (str "930") = none ∧
      parse_adif_records epoch
          (str "<CALL:4>W1AW<BAND:3>20m<MODE:2>CW<QSO_DATE:8>20230615<TIME_ON:3>930<eor>") =
        Except.ok [⟨str "W1AW", str "20m", str "CW", epoch, none,
          str "<CALL:4>W1AW<BAND:3>20m<MODE:2>CW<QSO_DATE:8>20230615<TIME_ON:3>930"⟩] ∧
      epoch ≠ (⟨2023, 6, 15, 9, 30, 0⟩ : PyDateTime) := by
  refine ⟨rfl, rfl, by decide⟩

/-- C3 as amended: a non-empty TIME_ON shorter than six characters is
right-padded with zeros to six digits before the combined string is parsed
as %Y%m%d%H%M%S; in particular TIME_ON=0930 with QSO_DATE=20230615 yields
2023-06-15 09:30:00, while TIME_ON=930 yields no parsed timestamp (the
counterexample), falling back to the current time. -/
theorem c3_amended_right_padding (d t : List Char) (hd : d ≠ []) (ht : t ≠ [])
    (hlen : t.length < 6) :
    deriveTimestamp d t =
        strptimeYmdHMS (d ++ (t ++ List.replicate (6 - t.length) '0')) ∧
      deriveTimestamp (str "20230615") (str "0930") =
        some (⟨2023, 6, 15, 9, 30, 0⟩ : PyDateTime) := by
  constructor
  · unfold deriveTimestamp
    rw [if_pos hd, if_pos ht]
    unfold pyLjust6
    rw [if_pos hlen]
  · rfl

/-- C3 witness: the padding equation applied at TIME_ON=93. -/
theorem c3_amended_right_padding_witness :
    deriveTimestamp (str "20230615") (str "93") =
        strptimeYmdHMS (str "20230615" ++
          (str "93" ++ List.replicate (6 - (str "93").length) '0')) ∧
      deriveTimestamp (str "20230615") (str "0930") =
        some (⟨2023, 6, 15, 9, 30, 0⟩ : PyDateTime) :=
  c3_amended_right_padding (str "20230615") (str "93")
    (by decide) (by decide) (by decide)

theorem processRecord_some_fields {now : PyDateTime} {record : List Char}
    {q : QRZFetchedQSO} (h : processRecord now record = Except.ok (some q)) :
    q.callsign ≠ [] ∧ q.band ≠ [] ∧ q.mode ≠ [] := by
  unfold processRecord at h
  by_cases h1 : pyStrip record = []
  · rw [if_pos h1] at h
    cases h
  · rw [if_neg h1] at h
    cases he : extractLogId ((dget (fieldsOf record) (str "APP_QRZLOG_LOGID")).getD []) with
    | none => rw [he] at h; cases h
    | some lid =>
      rw [he] at h
      dsimp only at h
      by_cases hc : (dget (fieldsOf record) (str "CALL")).getD [] ≠ [] ∧
          (dget (fieldsOf record) (str "BAND")).getD [] ≠ [] ∧
          (dget (fieldsOf record) (str "MODE")).getD [] ≠ []
      · rw [if_pos hc] at h
        injection h with h2
        injection h2 with h3
        subst h3
        exact hc
      · rw [if_neg hc] at h
        injection h with h2
        cases h2

theorem parseAdifGo_mem (now : PyDateTime) :
    ∀ (rs : List (List Char)) (acc out : List QRZFetchedQSO),
      parseAdifGo now rs acc = Except.ok out →
      (∀ q ∈ acc, q.callsign ≠ [] ∧ q.band ≠ [] ∧ q.mode ≠ []) →
      ∀ q ∈ out, q.callsign ≠ [] ∧ q.band ≠ [] ∧ q.mode ≠ [] := by
  intro rs
  induction rs with
  | nil =>
    intro acc out h hacc
    unfold parseAdifGo at h
    injection h with h1
    subst h1
    exact hacc
  | cons r rest ih =>
    intro acc out h hacc
    unfold parseAdifGo at h
    cases hp : processRecord now r with
    | error e => rw [hp] at h; cases h
    | ok o =>
      rw [hp] at h
      cases o with
      | none => exact ih acc out h hacc
      | some q0 =>
        refine ih (acc ++ [q0]) out h ?_
        intro q hq
        rcases List.mem_append.mp hq with hq1 | hq1
        · exact hacc q hq1
        · have hq0 : q = q0 := by simpa using hq1
          subst hq0
          exact processRecord_some_fields hp

/-- C8: every record emitted by the ADIF record parser has non-empty
callsign, band and mode fields; records lacking one of CALL, BAND, MODE
are silently dropped, and dropping them is not an error. -/
theorem c8_required_fields_nonempty (now : PyDateTime) (adif : List Char)
    (out : List QRZFetchedQSO)
    (h : parse_adif_records now adif = Except.ok out) :
    ∀ q ∈ out, q.callsign ≠ [] ∧ q.band ≠ [] ∧ q.mode ≠ [] := by
  refine parseAdifGo_mem now (splitEor adif) [] out h ?_
  intro q hq
  cases hq

/-- C8 witness: the theorem applied to a payload with one complete record
and one record lacking BAND (dropped without error). -/
theorem c8_required_fields_nonempty_witness :
    (str "W1AW") ≠ ([] : List Char) ∧ (str "20m") ≠ ([] : List Char) ∧
      (str "CW") ≠ ([] : List Char) :=
  c8_required_fields_nonempty epoch
    (str "<CALL:4>W1AW<BAND:3>20m<MODE:2>CW<eor><CALL:4>K9XX<MODE:2>CW<eor>")
    [⟨str "W1AW", str "20m", str "CW", epoch, none,
      str "<CALL:4>W1AW<BAND:3>20m<MODE:2>CW"⟩]
    rfl
    ⟨str "W1AW", str "20m", str "CW", epoch, none,
      str "<CALL:4>W1AW<BAND:3>20m<MODE:2>CW"⟩
    (List.mem_singleton.mpr rfl)

theorem dropWhile_eq_self_of_head {p : Char → Bool} {s : List Char}
    (h : ∀ c ∈ s, p c = false) : s.dropWhile p = s := by
  cases s with
  | nil => rfl
  | cons c t => simp [List.dropWhile_cons, h c (List.mem_cons_self c t)]

theorem pyStrip_of_digits {s : List Char} (h : ∀ c ∈ s, isDecDigit c = true) :
    pyStrip s = s := by
  have hns : ∀ c ∈ s, pyIsSpace c = false := by
    intro c hc
    have hd := h c hc
    unfold isDecDigit at hd
    rw [Bool.and_eq_true] at hd
    simp only [decide_eq_true_eq] at hd
    cases hsp : pyIsSpace c
    · rfl
    · exfalso
      unfold pyIsSpace at hsp
      simp only [Bool.or_eq_true, decide_eq_true_eq] at hsp
      omega
  unfold pyStrip
  rw [dropWhile_eq_self_of_head hns,
    dropWhile_eq_self_of_head (fun c hc => hns c (List.mem_reverse.mp hc)),
    List.reverse_reverse]

theorem udRest_of_digits {t : List Char} (h : ∀ c ∈ t, isDecDigit c = true) :
    udRest t = some t := by
  induction t with
  | nil => rfl
  | cons c cs ih =>
    have hc := h c (List.mem_cons_self c cs)
    have hcu : ¬ (c = '_') := by
      intro habs
      subst habs
      exact absurd hc (by decide)
    unfold udRest
    rw [if_neg hcu, if_pos hc, ih (fun x hx => h x (List.mem_cons_of_mem c hx))]
    rfl

theorem pyInt_of_digits {s : List Char} (hne : s ≠ [])
    (h : ∀ c ∈ s, isDecDigit c = true) :
    pyIntOfString s = some ((digitsVal s : Nat) : Int) := by
  unfold pyIntOfString
  rw [pyStrip_of_digits h]
  cases s with
  | nil => exact absurd rfl hne
  | cons c t =>
    have hc := h c (List.mem_cons_self c t)
    have hplus : ¬ (c = '+') := by
      intro habs; subst habs; exact absurd hc (by decide)
    have hminus : ¬ (c = '-') := by
      intro habs; subst habs; exact absurd hc (by decide)
    dsimp only
    rw [if_neg hplus, if_neg hminus]
    unfold udParse
    dsimp only
    rw [if_pos hc, udRest_of_digits (fun x hx => h x (List.mem_cons_of_mem c hx))]
    rfl

theorem pyCharIsDigit_ascii {c : Char} (ha : c.toNat < 128)
    (h : pyCharIsDigit c = true) : isDecDigit c = true := by
  unfold pyCharIsDigit at h
  rw [Bool.or_eq_true] at h
  rcases h with h1 | h1
  · exact h1
  · exfalso
    unfold isSuperscriptDigit at h1
    simp only [Bool.or_eq_true, Bool.and_eq_true, decide_eq_true_eq] at h1
    omega

theorem pyIsDigit_ascii_iff {s : List Char} (ha : ∀ c ∈ s, c.toNat < 128) :
    pyIsDigit s = true ↔ (s ≠ [] ∧ ∀ c ∈ s, isDecDigit c = true) := by
  unfold pyIsDigit
  rw [Bool.and_eq_true]
  constructor
  · intro h
    constructor
    · intro habs
      subst habs
      simp at h
    · intro c hc
      have h2 := h.2
      rw [List.all_eq_true] at h2
      exact pyCharIsDigit_ascii (ha c hc) (h2 c hc)
  · intro hcond
    obtain ⟨h1, h2⟩ := hcond
    constructor
    · cases s with
      | nil => exact absurd rfl h1
      | cons c t => rfl
    · rw [List.all_eq_true]
      intro c hc
      unfold pyCharIsDigit
      rw [Bool.or_eq_true]
      exact Or.inl (h2 c hc)

/-- C9 as amended: for an ASCII field value the extraction behaves as the
claim states: an all-decimal-digit value yields its numeric value (so
00482 yields 482, leading zeros ignored) and any other value yields no
identifier, in neither case raising.  Outside ASCII, str.isdigit also
accepts digit-property characters that int() rejects, and the extraction
raises, as the counterexample shows. -/
theorem c9_amended_logid_extraction (s : List Char)
    (ha : ∀ c ∈ s, c.toNat < 128) :
    extractLogId s =
      some (if s ≠ [] ∧ ∀ c ∈ s, isDecDigit c = true
        then some ((digitsVal s : Nat) : Int) else none) := by
  unfold extractLogId
  by_cases hd : pyIsDigit s = true
  · rw [if_pos hd]
    have hcond := (pyIsDigit_ascii_iff ha).mp hd
    rw [if_pos hcond, pyInt_of_digits hcond.1 hcond.2]
    rfl
  · rw [if_neg hd]
    rw [if_neg (fun hcond => hd ((pyIsDigit_ascii_iff ha).mpr hcond))]

/-- C9 witness: the extraction equation applied at the all-digits value
00482 and at the non-digit value N/A. -/
theorem c9_amended_logid_extraction_witness :
    (extractLogId (str "00482") =
      some (if (str "00482") ≠ [] ∧ ∀ c ∈ (str "00482"), isDecDigit c = true
        then some ((digitsVal (str "00482") : Nat) : Int) else none)) ∧
    (extractLogId (str "N/A") =
      some (if (str "N/A") ≠ [] ∧ ∀ c ∈ (str "N/A"), isDecDigit c = true
        then some ((digitsVal (str "N/A") : Nat) : Int) else none)) :=
  ⟨c9_amended_logid_extraction (str "00482") (by decide),
    c9_amended_logid_extraction (str "N/A") (by decide)⟩

/-- C9 counterexample: the superscript two passes str.isdigit, so the
parser calls int() on it, which raises ValueError: contrary to the claim,
a value that is not a plain digit string can raise instead of yielding no
identifier. -/
theorem c9_superscript_logid_raises :
    parse_adif_records epoch
        (str "<CALL:4>W1AW<BAND:3>20m<MODE:2>CW<APP_QRZLOG_LOGID:1>²<eor>") =
      Except.error PyErr.valueError := rfl

theorem splitEorF_chars (fuel : Nat) :
    ∀ (s seg : List Char), seg ∈ splitEorF fuel s → ∀ c ∈ seg, c ∈ s := by
  induction fuel with
  | zero =>
    intro s seg hseg c hc
    unfold splitEorF at hseg
    have hs : seg = s := by simpa using hseg
    subst hs
    exact hc
  | succ f ih =>
    intro s seg hseg c hc
    unfold splitEorF at hseg
    by_cases he : isEorAt s
    · rw [if_pos he] at hseg
      rcases List.mem_cons.mp hseg with h1 | h1
      · subst h1; cases hc
      · exact List.mem_of_mem_drop (ih _ seg h1 c hc)
    · rw [if_neg he] at hseg
      cases s with
      | nil =>
        dsimp only at hseg
        have hs : seg = [] := by simpa using hseg
        subst hs
        cases hc
      | cons hd tl =>
        dsimp only at hseg
        cases hsf : splitEorF f tl with
        | nil =>
          rw [hsf] at hseg
          dsimp only at hseg
          have hs : seg = [hd] := by simpa using hseg
          subst hs
          have hchd : c = hd := by simpa using hc
          subst hchd
          exact List.mem_cons_self c tl
        | cons seg0 segs =>
          rw [hsf] at hseg
          dsimp only at hseg
          rcases List.mem_cons.mp hseg with h1 | h1
          · subst h1
            rcases List.mem_cons.mp hc with h2 | h2
            · subst h2; exact List.mem_cons_self c tl
            · exact List.mem_cons_of_mem hd
                (ih tl seg0 (by rw [hsf]; exact List.mem_cons_self seg0 segs) c h2)
          · exact List.mem_cons_of_mem hd
              (ih tl seg (by rw [hsf]; exact List.mem_cons_of_mem seg0 h1) c hc)

theorem subsetConsSelf (c : Char) (l : List Char) : l ⊆ c :: l :=
  fun _ hx => List.mem_cons_of_mem c hx

theorem skipOptType_subset (l : List Char) : skipOptType l ⊆ l := by
  unfold skipOptType
  split
  · next r =>
    intro x hx
    exact List.mem_cons_of_mem ':' ((List.dropWhile_sublist _).subset hx)
  · exact fun x hx => hx

theorem matchTlv_chars {cs tag : List Char} {n : Nat} {v rest : List Char}
    (h : matchTlv cs = some (tag, n, v, rest)) : v ⊆ cs ∧ rest ⊆ cs := by
  unfold matchTlv at h
  simp only [Option.bind_eq_some] at h
  obtain ⟨r, h1, tr, h2, r2, h3, dr, h4, r6, h5, h6⟩ := h
  obtain ⟨tg, r1⟩ := tr
  obtain ⟨ds, r3⟩ := dr
  have e1 := expectChar_eq h1
  obtain ⟨ht1, ht2, ht3⟩ := takeWhile1_eq h2
  have e3 : r1 = ':' :: r2 := expectChar_eq h3
  obtain ⟨hd1, hd2, hd3⟩ := takeWhile1_eq h4
  have e5 : skipOptType r3 = '>' :: r6 := expectChar_eq h5
  simp only [Option.some.injEq, Prod.mk.injEq] at h6
  have hv : v = r6.takeWhile (fun c => decide (c ≠ '<')) := h6.2.2.1.symm
  have hrest : rest = r6.dropWhile (fun c => decide (c ≠ '<')) := h6.2.2.2.symm
  have hr6 : r6 ⊆ cs := by
    have s1 : r6 ⊆ skipOptType r3 := by rw [e5]; exact subsetConsSelf _ _
    have s2 : skipOptType r3 ⊆ r3 := skipOptType_subset r3
    have s3 : r3 ⊆ r2 := by rw [hd2]; exact (List.dropWhile_sublist _).subset
    have s4 : r2 ⊆ r1 := by rw [e3]; exact subsetConsSelf _ _
    have s5 : r1 ⊆ r := by rw [ht2]; exact (List.dropWhile_sublist _).subset
    have s6 : r ⊆ cs := by rw [e1]; exact subsetConsSelf _ _
    exact fun x hx => s6 (s5 (s4 (s3 (s2 (s1 hx)))))
  constructor
  · rw [hv]
    exact fun x hx => hr6 ((List.takeWhile_sublist _).subset hx)
  · rw [hrest]
    exact fun x hx => hr6 ((List.dropWhile_sublist _).subset hx)

theorem scanFieldTokensF_chars (fuel : Nat) :
    ∀ (cs : List Char) (t : List Char × Nat × List Char),
      t ∈ scanFieldTokensF fuel cs → t.2.2 ⊆ cs := by
  induction fuel with
  | zero =>
    intro cs t ht
    simp only [scanFieldTokensF] at ht
    exact absurd ht (List.not_mem_nil t)
  | succ f ih =>
    intro cs t ht
    simp only [scanFieldTokensF] at ht
    cases hm : matchTlv cs with
    | some tok =>
      obtain ⟨tag, n, v, rest⟩ := tok
      rw [hm] at ht
      dsimp only at ht
      rcases List.mem_cons.mp ht with h1 | h1
      · subst h1
        intro x hx
        exact (matchTlv_chars hm).1 ((List.take_subset n v) hx)
      · intro x hx
        exact (matchTlv_chars hm).2 (ih rest t h1 hx)
    | none =>
      rw [hm] at ht
      cases cs with
      | nil =>
        dsimp only at ht
        exact absurd ht (List.not_mem_nil t)
      | cons hd tl =>
        dsimp only at ht
        exact fun x hx => List.mem_cons_of_mem hd (ih tl t ht hx)

theorem dget_mem {d : List (List Char × List Char)} {k v : List Char}
    (h : dget d k = some v) : (k, v) ∈ d := by
  induction d with
  | nil => cases h
  | cons p rest ih =>
    obtain ⟨k', v'⟩ := p
    unfold dget at h
    cases hr : dget rest k with
    | some w =>
      rw [hr] at h
      dsimp only at h
      injection h with h1
      subst h1
      exact List.mem_cons_of_mem _ (ih hr)
    | none =>
      rw [hr] at h
      dsimp only at h
      by_cases hk : k' = k
      · rw [if_pos hk] at h
        injection h with h1
        subst h1
        subst hk
        exact List.mem_cons_self _ _
      · rw [if_neg hk] at h
        cases h

theorem fieldsOf_chars {record k v : List Char}
    (h : dget (fieldsOf record) k = some v) : v ⊆ record := by
  have hmem := dget_mem h
  unfold fieldsOf at hmem
  obtain ⟨t, ht, heq⟩ := List.mem_map.mp hmem
  have hv : v = t.2.2 := by
    have := congrArg Prod.snd heq
    simpa using this.symm
  rw [hv]
  exact scanFieldTokensF_chars record.length record t ht

theorem extractLogId_isSome_of_ascii {s : List Char}
    (ha : ∀ c ∈ s, c.toNat < 128) : ∃ o, extractLogId s = some o := by
  unfold extractLogId
  by_cases hd : pyIsDigit s = true
  · rw [if_pos hd]
    have hcond := (pyIsDigit_ascii_iff ha).mp hd
    rw [pyInt_of_digits hcond.1 hcond.2]
    exact ⟨some ((digitsVal s : Nat) : Int), rfl⟩
  · rw [if_neg hd]
    exact ⟨none, rfl⟩

theorem processRecord_ok_of_ascii (now : PyDateTime) (record : List Char)
    (ha : ∀ c ∈ record, c.toNat < 128) :
    ∃ o, processRecord now record = Except.ok o := by
  unfold processRecord
  by_cases h1 : pyStrip record = []
  · rw [if_pos h1]
    exact ⟨none, rfl⟩
  · rw [if_neg h1]
    have hs0 : ∀ c ∈ (dget (fieldsOf record) (str "APP_QRZLOG_LOGID")).getD [],
        c.toNat < 128 := by
      cases hg : dget (fieldsOf record) (str "APP_QRZLOG_LOGID") with
      | none =>
        intro c hc
        simp at hc
      | some w =>
        intro c hc
        simp only [Option.getD_some] at hc
        exact ha c (fieldsOf_chars hg hc)
    obtain ⟨o, ho⟩ := extractLogId_isSome_of_ascii hs0
    rw [ho]
    dsimp only
    by_cases hc : (dget (fieldsOf record) (str "CALL")).getD [] ≠ [] ∧
        (dget (fieldsOf record) (str "BAND")).getD [] ≠ [] ∧
        (dget (fieldsOf record) (str "MODE")).getD [] ≠ []
    · rw [if_pos hc]
      exact ⟨_, rfl⟩
    · rw [if_neg hc]
      exact ⟨none, rfl⟩

theorem parseAdifGo_ok (now : PyDateTime) :
    ∀ (rs : List (List Char)) (acc : List QRZFetchedQSO),
      (∀ r ∈ rs, ∃ o, processRecord now r = Except.ok o) →
      ∃ out, parseAdifGo now rs acc = Except.ok out := by
  intro rs
  induction rs with
  | nil =>
    intro acc _
    exact ⟨acc, rfl⟩
  | cons r rest ih =>
    intro acc h
    obtain ⟨o, ho⟩ := h r (List.mem_cons_self r rest)
    cases o with
    | none =>
      unfold parseAdifGo
      rw [ho]
      exact ih acc fun x hx => h x (List.mem_cons_of_mem r hx)
    | some q =>
      unfold parseAdifGo
      rw [ho]
      exact ih (acc ++ [q]) fun x hx => h x (List.mem_cons_of_mem r hx)

/-- C10 as amended: on payloads made of ASCII characters (all the protocol
emits) parse_adif_records is total: every record segment is ASCII, so the
isdigit guard only admits plain digit strings, which int() always
converts.  The guard does not protect non-ASCII digit-property characters,
for which int() raises, so totality fails on arbitrary strings, as the
counterexample shows. -/
theorem c10_amended_total_on_ascii (now : PyDateTime) (adif : List Char)
    (ha : ∀ c ∈ adif, c.toNat < 128) :
    ∃ out, parse_adif_records now adif = Except.ok out := by
  unfold parse_adif_records
  apply parseAdifGo_ok
  intro r hr
  apply processRecord_ok_of_ascii
  intro c hc
  exact ha c (splitEorF_chars adif.length adif r hr c hc)

/-- C10 witness: the totality theorem applied to an ASCII payload whose
log-identifier value N/A is rejected by the digit guard without error. -/
theorem c10_amended_total_on_ascii_witness :
    ∃ out, parse_adif_records epoch
        (str "<CALL:4>W1AW<BAND:3>20m<MODE:2>CW<APP_QRZLOG_LOGID:3>N/A<eor>") =
      Except.ok out :=
  c10_amended_total_on_ascii epoch
    (str "<CALL:4>W1AW<BAND:3>20m<MODE:2>CW<APP_QRZLOG_LOGID:3>N/A<eor>")
    (by decide)

/-- C10 counterexample: the superscript one satisfies str.isdigit but
int() rejects it, so the all-digits guard does not imply a safe
conversion, and parse_adif_records raises ValueError on a payload carrying
that value (even though the record would not have been emitted). -/
theorem c10_isdigit_guard_not_int_safe :
    pyIsDigit (str "¹") = true ∧ pyIntOfString (str "¹") = none ∧
      parse_adif_records epoch (str "<APP_QRZLOG_LOGID:1>¹<eor>") =
        Except.error PyErr.valueError :=
  ⟨by decide, rfl, rfl⟩
